import Mathlib

/-!
# A verification development for `aidapt_torch_utils`

Shallow embedding of the two modules of the repository:

* `checkpoint_handler.py` (`CheckpointHandler`): saving/loading checkpoint
  files named `checkpoint-<epoch>.pth` inside one directory.
* `tensorboard_writer.py` (`TensorboardWriter`): forwarding metric items to a
  sink while tracking per-tag steps, with a step-inference rule for grouped
  (`scalars`) items.

Python dictionaries are modelled as association lists (`upsert` is
`d[k] = v`, i.e. update-in-place-or-append, exactly insertion-order
semantics of a Python dict); the filesystem of one checkpoint directory is an
association list from filename to stored payload.  Machine integers are `Int`
(Python ints are unbounded), Python `%` is `Int.fmod` (floor modulus, the
sign of the divisor), and code that can raise returns `Except`, with the
Python exception class recorded in the error value.
-/

namespace AidaptTorchUtils

/-- `d[k] = v` on a Python dict: replace the value in place if the key is
present (keeping its position), otherwise append the binding at the end. -/
def upsert {α : Type} : List (String × α) → String → α → List (String × α)
  | [], k, v => [(k, v)]
  | (k', v') :: rest, k, v =>
    if k' = k then (k, v) :: rest else (k', v') :: upsert rest k v

/-- `d.get(k)` on a Python dict: the value bound to `k`, if any. -/
def lookupS {α : Type} : List (String × α) → String → Option α
  | [], _ => none
  | (k', v) :: rest, k => if k' = k then some v else lookupS rest k

theorem lookupS_upsert {α : Type} (m : List (String × α)) (k k' : String) (v : α) :
    lookupS (upsert m k v) k' = if k = k' then some v else lookupS m k' := by
  induction m with
  | nil => simp [upsert, lookupS]
  | cons hd tl ih =>
    obtain ⟨k₀, v₀⟩ := hd
    simp only [upsert]
    by_cases h₀ : k₀ = k
    · subst h₀
      by_cases h₁ : k₀ = k'
      · subst h₁
        simp [lookupS]
      · simp [lookupS, h₁]
    · by_cases h₁ : k₀ = k'
      · subst h₁
        have hk : ¬k = k₀ := fun h => h₀ h.symm
        simp [lookupS, if_neg h₀, hk]
      · simp [lookupS, if_neg h₀, h₁, ih]

theorem lookupS_upsert_self {α : Type} (m : List (String × α)) (k : String) (v : α) :
    lookupS (upsert m k v) k = some v := by
  simp [lookupS_upsert]

theorem lookupS_upsert_ne {α : Type} (m : List (String × α)) {k k' : String} (v : α)
    (h : k ≠ k') : lookupS (upsert m k v) k' = lookupS m k' := by
  simp [lookupS_upsert, h]

theorem isSome_lookupS_upsert {α : Type} (m : List (String × α)) (k k' : String) (v : α)
    (h : (lookupS m k').isSome) : (lookupS (upsert m k v) k').isSome := by
  rw [lookupS_upsert]
  by_cases hk : k = k' <;> simp [hk, h]

/-! ## Decimal rendering and parsing of epoch numbers

`checkpoint_handler.py` renders filenames with `'checkpoint-{}.pth'.format(epoch)`
and parses them back with `int(file_name.split(".")[0].split("-")[1])`.  We
model Python's decimal rendering of an `int` and `str.split` on a one-character
separator at the level of character lists. -/

/-- Big-endian decimal digit characters of `n`, with `fuel` bounding the
recursion (callers pass `fuel = n`); empty for `n = 0`. -/
def toDecimalAux : Nat → Nat → List Char
  | 0, _ => []
  | fuel + 1, n =>
    if n = 0 then [] else toDecimalAux fuel (n / 10) ++ [Nat.digitChar (n % 10)]

/-- The decimal digit characters of a natural number, as Python's `str` renders
it: no sign, no padding, and `"0"` for zero. -/
def natToDigitChars (n : Nat) : List Char :=
  if n = 0 then ['0'] else toDecimalAux n n

/-- The characters Python's `str` produces for an `int`: a `'-'` sign for
negative values followed by the decimal digits of the absolute value. -/
def intChars (n : Int) : List Char :=
  if n < 0 then '-' :: natToDigitChars n.natAbs else natToDigitChars n.natAbs

/-- Python's `s.split(sep)` for a one-character separator `sep`: split at every
occurrence, keeping empty fragments (`"".split(".") = [""]`). -/
def splitChar (sep : Char) : List Char → List (List Char)
  | [] => [[]]
  | c :: rest =>
    match splitChar sep rest with
    | [] => [[c]]
    | grp :: grps => if c = sep then [] :: grp :: grps else (c :: grp) :: grps

/-- Python's `int(s)` restricted to the shapes arising here: an optional
leading `'-'` followed by one or more decimal digits (whitespace and
underscore forms of `int()` are not modelled). -/
def parseDigits (cs : List Char) : Option Nat :=
  if cs = [] then none
  else if cs.all (fun c => c.isDigit) then
    some (cs.foldl (fun n c => 10 * n + (c.toNat - 48)) 0)
  else none

/-- Python's `int(s)` on a possibly-signed decimal string. -/
def parsePyInt : List Char → Option Int
  | [] => none
  | c :: cs =>
    if c = '-' then (parseDigits cs).map (fun n => -(n : Int))
    else (parseDigits (c :: cs)).map (fun n => (n : Int))

theorem digitChar_isDigit {d : Nat} (h : d < 10) : (Nat.digitChar d).isDigit = true := by
  interval_cases d <;> decide

theorem digitChar_toNat {d : Nat} (h : d < 10) : (Nat.digitChar d).toNat - 48 = d := by
  interval_cases d <;> decide

theorem toDecimalAux_foldl (fuel : Nat) : ∀ n, n ≤ fuel → ∀ acc : Nat,
    (toDecimalAux fuel n).foldl (fun a c => 10 * a + (c.toNat - 48)) acc
      = acc * 10 ^ (toDecimalAux fuel n).length + n := by
  induction fuel with
  | zero =>
    intro n hn acc
    interval_cases n
    simp [toDecimalAux]
  | succ fuel ih =>
    intro n hn acc
    by_cases h0 : n = 0
    · subst h0
      simp [toDecimalAux]
    · have hdiv : n / 10 ≤ fuel := by
        have : n / 10 < n := Nat.div_lt_self (Nat.pos_of_ne_zero h0) (by norm_num)
        omega
      simp only [toDecimalAux, if_neg h0, List.foldl_append, List.length_append,
        List.foldl_cons, List.foldl_nil, List.length_cons, List.length_nil]
      rw [ih (n / 10) hdiv acc, digitChar_toNat (Nat.mod_lt n (by norm_num))]
      have key : 10 * (n / 10) + n % 10 = n := Nat.div_add_mod n 10
      calc 10 * (acc * 10 ^ (toDecimalAux fuel (n / 10)).length + n / 10) + n % 10
          = acc * (10 ^ (toDecimalAux fuel (n / 10)).length * 10)
              + (10 * (n / 10) + n % 10) := by ring
        _ = acc * 10 ^ ((toDecimalAux fuel (n / 10)).length + (0 + 1)) + n := by
              rw [key]
              ring

theorem toDecimalAux_isDigit (fuel : Nat) : ∀ n, ∀ c ∈ toDecimalAux fuel n,
    c.isDigit = true := by
  induction fuel with
  | zero => intro n c hc; simp [toDecimalAux] at hc
  | succ fuel ih =>
    intro n c hc
    by_cases h0 : n = 0
    · subst h0
      simp [toDecimalAux] at hc
    · simp only [toDecimalAux, if_neg h0, List.mem_append, List.mem_singleton] at hc
      rcases hc with hc | hc
      · exact ih _ c hc
      · subst hc
        exact digitChar_isDigit (Nat.mod_lt n (by norm_num))

theorem natToDigitChars_ne_nil (n : Nat) : natToDigitChars n ≠ [] := by
  unfold natToDigitChars
  by_cases h0 : n = 0
  · simp [h0]
  · simp only [if_neg h0]
    obtain ⟨m, rfl⟩ : ∃ m, n = m + 1 := ⟨n - 1, by omega⟩
    simp [toDecimalAux, h0]

theorem natToDigitChars_isDigit (n : Nat) : ∀ c ∈ natToDigitChars n, c.isDigit = true := by
  unfold natToDigitChars
  by_cases h0 : n = 0
  · intro c hc
    simp [h0] at hc
    subst hc
    decide
  · simp only [if_neg h0]
    exact toDecimalAux_isDigit n n

theorem parseDigits_natToDigitChars (n : Nat) :
    parseDigits (natToDigitChars n) = some n := by
  by_cases h0 : n = 0
  · subst h0
    decide
  · unfold parseDigits
    rw [if_neg (natToDigitChars_ne_nil n),
      if_pos (List.all_eq_true.mpr (natToDigitChars_isDigit n))]
    unfold natToDigitChars
    simp only [if_neg h0]
    rw [toDecimalAux_foldl n n le_rfl 0]
    simp

theorem splitChar_ne_nil (sep : Char) : ∀ l : List Char, splitChar sep l ≠ [] := by
  intro l
  induction l with
  | nil => simp [splitChar]
  | cons c rest ih =>
    simp only [splitChar]
    match h : splitChar sep rest with
    | [] => exact absurd h ih
    | grp :: grps =>
      by_cases hc : c = sep <;> simp [hc]

theorem splitChar_not_mem {sep : Char} :
    ∀ {l : List Char}, sep ∉ l → splitChar sep l = [l] := by
  intro l
  induction l with
  | nil => intro _; rfl
  | cons c rest ih =>
    intro h
    have hc : c ≠ sep := fun hcs => h (hcs ▸ List.mem_cons_self c rest)
    have hrest : sep ∉ rest := fun hm => h (List.mem_cons_of_mem c hm)
    simp only [splitChar, ih hrest]
    simp [hc]

theorem splitChar_append {sep : Char} :
    ∀ {a : List Char}, sep ∉ a → ∀ b, splitChar sep (a ++ sep :: b) = a :: splitChar sep b := by
  intro a
  induction a with
  | nil =>
    intro _ b
    simp only [List.nil_append, splitChar]
    match h : splitChar sep b with
    | [] => exact absurd h (splitChar_ne_nil sep b)
    | grp :: grps => simp
  | cons c a ih =>
    intro h b
    have hc : c ≠ sep := fun hcs => h (hcs ▸ List.mem_cons_self c a)
    have ha : sep ∉ a := fun hm => h (List.mem_cons_of_mem c hm)
    simp only [List.cons_append, splitChar, List.append_eq]
    rw [ih ha b]
    simp [hc]

theorem isDigit_ne_dot {c : Char} (h : c.isDigit = true) : c ≠ '.' := by
  intro hc
  subst hc
  exact absurd h (by decide)

theorem isDigit_ne_dash {c : Char} (h : c.isDigit = true) : c ≠ '-' := by
  intro hc
  subst hc
  exact absurd h (by decide)

end AidaptTorchUtils

namespace AidaptTorchUtils

/-! ## The checkpoint handler (`checkpoint_handler.py`) -/

/-- The Python exception classes the checkpoint code can raise.  `torch.load`
on a missing path raises `FileNotFoundError` (the spec's NotFound error) and a
missing key in the deserialized payload raises `KeyError` (the spec's Corrupt
error); the named field records which key was missing. -/
inductive CkptError where
  | notFound
  | corrupt (field : String)
  | indexError
  | valueError
  | zeroDivisionError
deriving DecidableEq

/-- The serialized bundle `torch.save` writes (`state` in `save_checkpoint`).
Fields are `Option` so that a payload can lack a key, in which case indexing
it raises `KeyError`.  The two weight blobs are opaque; we model them as
integers. -/
structure StoredState where
  arch : Option String
  epoch : Option Int
  state_dict : Option Int
  optimizer : Option Int
deriving DecidableEq

/-- One checkpoint directory: filenames mapped to the stored payloads. -/
abbrev FS : Type := List (String × StoredState)

/-- `os.listdir` on the checkpoint directory. -/
def listdir (fs : FS) : List String :=
  fs.map Prod.fst

/-- The dataclass `CheckpointData`: `model` is the `state_dict` blob loaded
into the model, `optimizer` the optimizer blob when an optimizer was
supplied. -/
structure CheckpointData where
  arch : String
  model : Int
  optimizer : Option Int
  epoch : Int
deriving DecidableEq

/-- `'checkpoint-{}.pth'.format(epoch)`. -/
def checkpointFilename (epoch : Int) : String :=
  String.mk ("checkpoint-".data ++ intChars epoch ++ ".pth".data)

/-- `CheckpointHandler.save_checkpoint`: build the `state` dict (keys `arch`,
`epoch`, `state_dict`, `optimizer`, all present) and `torch.save` it under
`checkpoint-<epoch>.pth`, overwriting any existing file of that name. -/
def save_checkpoint (fs : FS) (arch : String) (model_state optimizer_state : Int)
    (epoch : Int) : FS :=
  upsert fs (checkpointFilename epoch)
    ⟨some arch, some epoch, some model_state, some optimizer_state⟩

/-- `CheckpointHandler.save_checkpoint_interval`: `if epoch % self.interval == 0`
then save.  Python `%` is floor modulus (`Int.fmod`) and raises
`ZeroDivisionError` when the interval is zero; no other validation exists. -/
def save_checkpoint_interval (fs : FS) (interval : Int) (arch : String)
    (model_state optimizer_state : Int) (epoch : Int) : Except CkptError FS :=
  if interval = 0 then .error .zeroDivisionError
  else if Int.fmod epoch interval = 0 then
    .ok (save_checkpoint fs arch model_state optimizer_state epoch)
  else .ok fs

/-- `CheckpointHandler.load_checkpoint`: `torch.load` the path (NotFound if it
does not exist), index `state_dict`, then — only when an optimizer was
supplied — index `optimizer`, then index `arch` and `epoch`; each missing key
raises the Corrupt error naming it, in the order the source indexes them. -/
def load_checkpoint (fs : FS) (withOptimizer : Bool) (resume_path : String) :
    Except CkptError CheckpointData :=
  match lookupS fs resume_path with
  | none => .error .notFound
  | some ckpt =>
    match ckpt.state_dict with
    | none => .error (.corrupt "state_dict")
    | some sd =>
      if withOptimizer then
        match ckpt.optimizer with
        | none => .error (.corrupt "optimizer")
        | some opt =>
          match ckpt.arch, ckpt.epoch with
          | none, _ => .error (.corrupt "arch")
          | some _, none => .error (.corrupt "epoch")
          | some a, some e => .ok ⟨a, sd, some opt, e⟩
      else
        match ckpt.arch, ckpt.epoch with
        | none, _ => .error (.corrupt "arch")
        | some _, none => .error (.corrupt "epoch")
        | some a, some e => .ok ⟨a, sd, none, e⟩

/-- `int(file_name.split(".")[0].split("-")[1])`: an absent index raises
`IndexError`, an unparsable integer raises `ValueError`. -/
def parseCheckpointIndex (name : String) : Except CkptError Int :=
  let stem := (splitChar '.' name.data).headD []
  match (splitChar '-' stem).get? 1 with
  | none => .error .indexError
  | some cs =>
    match parsePyInt cs with
    | none => .error .valueError
    | some n => .ok n

theorem intChars_natCast (e : Nat) : intChars (e : Int) = natToDigitChars e := by
  unfold intChars
  rw [if_neg (by exact_mod_cast not_lt.mpr (Int.natCast_nonneg e))]
  simp

/-- Parsing inverts rendering on the naming convention: the parser recovers
the epoch embedded in `checkpoint-<epoch>.pth`. -/
theorem parseCheckpointIndex_filename (e : Nat) :
    parseCheckpointIndex (checkpointFilename (e : Int)) = .ok (e : Int) := by
  obtain ⟨c, t, hct⟩ := List.exists_cons_of_ne_nil (natToDigitChars_ne_nil e)
  have hds := natToDigitChars_isDigit e
  have hdot : ('.' : Char) ∉ natToDigitChars e := fun hm => isDigit_ne_dot (hds _ hm) rfl
  have hdash : ('-' : Char) ∉ natToDigitChars e := fun hm => isDigit_ne_dash (hds _ hm) rfl
  have hpre1 : ('.' : Char) ∉ ("checkpoint-".data ++ natToDigitChars e) := by
    intro hm
    rcases List.mem_append.mp hm with hm | hm
    · revert hm; decide
    · exact hdot hm
  have hassoc : "checkpoint-".data ++ natToDigitChars e ++ ".pth".data
      = ("checkpoint-".data ++ natToDigitChars e) ++ ('.' :: "pth".data) := by
    rw [List.append_assoc]
  have hstem : "checkpoint-".data ++ natToDigitChars e
      = "checkpoint".data ++ '-' :: natToDigitChars e := by
    have : ("checkpoint-".data : List Char) = "checkpoint".data ++ ['-'] := by decide
    rw [this, List.append_assoc]
    rfl
  unfold parseCheckpointIndex checkpointFilename
  rw [intChars_natCast]
  show (match ((splitChar '.' ("checkpoint-".data ++ natToDigitChars e ++ ".pth".data)).headD []
      |> splitChar '-').get? 1 with
    | none => Except.error CkptError.indexError
    | some cs =>
      match parsePyInt cs with
      | none => Except.error CkptError.valueError
      | some n => Except.ok n) = Except.ok (e : Int)
  rw [hassoc, splitChar_append hpre1, List.headD_cons, hstem,
    splitChar_append (by decide), splitChar_not_mem hdash]
  simp only [List.get?]
  have hcdigit : c.isDigit = true := hds c (hct ▸ List.mem_cons_self c t)
  rw [hct]
  simp only [parsePyInt, if_neg (isDigit_ne_dash hcdigit), ← hct,
    parseDigits_natToDigitChars e]
  rfl

/-- The parse of every listed filename, failing at the first filename that
does not parse — the order in which Python's `sorted` consumes the lazy
`map`. -/
def parseEpochs : List String → Except CkptError (List Int)
  | [] => .ok []
  | name :: rest =>
    match parseCheckpointIndex name with
    | .error e => .error e
    | .ok i =>
      match parseEpochs rest with
      | .error e => .error e
      | .ok is => .ok (i :: is)

/-- `sorted(..., reverse=True)[0]`: the maximum of a nonempty list. -/
def maxEpoch (i : Int) (is : List Int) : Int :=
  is.foldl max i

/-- `CheckpointHandler.load_latest_checkpoint`: parse an epoch out of every
directory entry, take the maximum, and load `checkpoint-<max>.pth`.  An empty
directory raises `IndexError` (from indexing `[0]`). -/
def load_latest_checkpoint (fs : FS) (withOptimizer : Bool) :
    Except CkptError CheckpointData :=
  match parseEpochs (listdir fs) with
  | .error e => .error e
  | .ok [] => .error .indexError
  | .ok (i :: is) =>
    load_checkpoint fs withOptimizer (checkpointFilename (maxEpoch i is))

theorem maxEpoch_mem (i : Int) (is : List Int) : maxEpoch i is ∈ i :: is := by
  induction is generalizing i with
  | nil => simp [maxEpoch]
  | cons j js ih =>
    have hstep : maxEpoch i (j :: js) = maxEpoch (max i j) js := rfl
    rw [hstep]
    rcases List.mem_cons.mp (ih (max i j)) with h | h
    · rw [h]
      rcases max_choice i j with hm | hm <;> rw [hm] <;> simp
    · simp [h]

theorem le_maxEpoch (i : Int) (is : List Int) : ∀ x ∈ i :: is, x ≤ maxEpoch i is := by
  induction is generalizing i with
  | nil =>
    intro x hx
    rcases List.mem_cons.mp hx with rfl | hx
    · exact le_of_eq rfl
    · simp at hx
  | cons j js ih =>
    intro x hx
    have hstep : maxEpoch i (j :: js) = maxEpoch (max i j) js := rfl
    rw [hstep]
    rcases List.mem_cons.mp hx with rfl | hx
    · exact le_trans (le_max_left x j) (ih (max x j) _ (List.mem_cons_self _ _))
    rcases List.mem_cons.mp hx with rfl | hx
    · exact le_trans (le_max_right i x) (ih (max i x) _ (List.mem_cons_self _ _))
    · exact ih (max i j) x (List.mem_cons_of_mem _ hx)

/-- The filename of a non-negative epoch, as rendered by `save_checkpoint`. -/
def epochFilename (e : Nat) : String :=
  checkpointFilename (e : Int)

theorem parseEpochs_map_filename (es : List Nat) :
    parseEpochs (es.map epochFilename)
      = .ok (es.map (Nat.cast : Nat → Int)) := by
  induction es with
  | nil => rfl
  | cons e es ih =>
    simp only [List.map_cons, parseEpochs, epochFilename,
      parseCheckpointIndex_filename e, ih]

theorem exists_epochs_of_conv : ∀ names : List String,
    (∀ n ∈ names, ∃ e : Nat, n = epochFilename e) →
    ∃ es : List Nat, names = es.map epochFilename := by
  intro names
  induction names with
  | nil => exact fun _ => ⟨[], rfl⟩
  | cons n ns ih =>
    intro h
    obtain ⟨e, he⟩ := h n (List.mem_cons_self _ _)
    obtain ⟨es, hes⟩ := ih (fun m hm => h m (List.mem_cons_of_mem _ hm))
    exact ⟨e :: es, by simp [he, hes]⟩

theorem epochFilename_inj {e e' : Nat}
    (h : epochFilename e = epochFilename e') : e = e' := by
  have p1 : parseCheckpointIndex (epochFilename e) = .ok (e : Int) :=
    parseCheckpointIndex_filename e
  have p2 : parseCheckpointIndex (epochFilename e') = .ok (e' : Int) :=
    parseCheckpointIndex_filename e'
  have h2 : (Except.ok (e : Int) : Except CkptError Int) = .ok (e' : Int) := by
    rw [← p1, ← p2, h]
  exact_mod_cast Except.ok.inj h2

/-- Claim C4: the source performs no interval validation.  With the negative
interval `-2` and epoch `4`, Python's floor modulus is `0`, so
`save_checkpoint_interval` silently writes `checkpoint-4.pth` instead of
raising an InvalidInterval error; with interval `0` it raises
`ZeroDivisionError`, not an explicit InvalidInterval error. -/
theorem save_checkpoint_interval_nonpositive_not_rejected :
    save_checkpoint_interval [] (-2) "Net" 11 22 4
      = .ok [(checkpointFilename 4, ⟨some "Net", some 4, some 11, some 22⟩)] ∧
    save_checkpoint_interval [] 0 "Net" 11 22 4 = .error .zeroDivisionError := by
  exact ⟨rfl, rfl⟩

/-- Claim C6: for every positive interval, `save_checkpoint_interval` writes
the payload under `checkpoint-<epoch>.pth` exactly when
`epoch mod interval = 0` and leaves the directory untouched otherwise. -/
theorem save_checkpoint_interval_iff_dvd (fs : FS) (arch : String)
    (ms opt interval epoch : Int) (h : 0 < interval) :
    (epoch % interval = 0 →
      save_checkpoint_interval fs interval arch ms opt epoch
        = .ok (upsert fs (checkpointFilename epoch)
            ⟨some arch, some epoch, some ms, some opt⟩)) ∧
    (epoch % interval ≠ 0 →
      save_checkpoint_interval fs interval arch ms opt epoch = .ok fs) := by
  have hnz : interval ≠ 0 := by omega
  have hfm : Int.fmod epoch interval = epoch % interval :=
    Int.fmod_eq_emod epoch (le_of_lt h)
  constructor <;> intro hmod <;>
    simp [save_checkpoint_interval, hnz, hfm, hmod, save_checkpoint]

theorem save_checkpoint_interval_iff_dvd_witness :
    (0 : Int) < 2 ∧
    save_checkpoint_interval [] 2 "Net" 11 22 4
      = .ok (upsert [] (checkpointFilename 4) ⟨some "Net", some 4, some 11, some 22⟩) ∧
    save_checkpoint_interval [] 2 "Net" 11 22 3 = .ok [] :=
  ⟨by decide,
   (save_checkpoint_interval_iff_dvd [] "Net" 11 22 2 4 (by decide)).1 (by decide),
   (save_checkpoint_interval_iff_dvd [] "Net" 11 22 2 3 (by decide)).2 (by decide)⟩

/-- Claim C5: the scanning loop of `load_latest_checkpoint` does not ignore
filenames outside the naming convention and does not raise a NotFound error on
an empty directory: a stray `notes.txt` makes the whole scan raise
`IndexError` (from `split("-")[1]`), and an empty directory raises
`IndexError` (from `sorted(...)[0]`). -/
theorem load_latest_checkpoint_scan_errors :
    load_latest_checkpoint
        [(checkpointFilename 1, ⟨some "Net", some 1, some 11, some 22⟩),
         ("notes.txt", ⟨some "Net", some 1, some 11, some 22⟩)] false
      = .error .indexError ∧
    load_latest_checkpoint ([] : FS) false = .error .indexError := by
  exact ⟨rfl, rfl⟩

/-- Claim C7: when every filename in the directory obeys the naming
convention and the directory is nonempty, `load_latest_checkpoint` delegates
to `load_checkpoint` on the file whose embedded epoch is maximal. -/
theorem load_latest_checkpoint_selects_max (fs : FS) (wo : Bool)
    (hne : listdir fs ≠ [])
    (hconv : ∀ name ∈ listdir fs, ∃ e : Nat, name = epochFilename e) :
    ∃ M : Nat,
      epochFilename M ∈ listdir fs ∧
      (∀ e : Nat, epochFilename e ∈ listdir fs → e ≤ M) ∧
      load_latest_checkpoint fs wo = load_checkpoint fs wo (epochFilename M) := by
  obtain ⟨es, hes⟩ := exists_epochs_of_conv _ hconv
  match es, hes with
  | [], hes => exact absurd hes hne
  | e :: es, hes =>
    have hmem : maxEpoch (e : Int) (es.map (Nat.cast : Nat → Int))
        ∈ (e :: es).map (Nat.cast : Nat → Int) := by
      simpa using maxEpoch_mem (e : Int) (es.map (Nat.cast : Nat → Int))
    obtain ⟨M, hMmem, hMeq⟩ := List.mem_map.mp hmem
    refine ⟨M, ?_, ?_, ?_⟩
    · rw [hes]
      exact List.mem_map_of_mem _ hMmem
    · intro e' he'
      rw [hes] at he'
      obtain ⟨x, hx, hxe⟩ := List.mem_map.mp he'
      have hxe' : x = e' := epochFilename_inj hxe
      subst hxe'
      have hle : (x : Int) ≤ maxEpoch (e : Int) (es.map (Nat.cast : Nat → Int)) := by
        apply le_maxEpoch
        simpa using List.mem_map_of_mem (Nat.cast : Nat → Int) hx
      rw [← hMeq] at hle
      exact_mod_cast hle
    · unfold load_latest_checkpoint
      rw [hes, parseEpochs_map_filename, List.map_cons]
      show load_checkpoint fs wo
          (checkpointFilename (maxEpoch ((e : Nat) : Int) (es.map (Nat.cast : Nat → Int))))
        = load_checkpoint fs wo (epochFilename M)
      rw [← hMeq]
      rfl

theorem load_latest_checkpoint_selects_max_witness :
    listdir [(epochFilename 1, ⟨some "A", some 1, some 11, some 21⟩),
             (epochFilename 7, ⟨some "C", some 7, some 13, some 23⟩),
             (epochFilename 3, ⟨some "B", some 3, some 12, some 22⟩)] ≠ [] ∧
    (∃ M : Nat,
      epochFilename M ∈
        listdir [(epochFilename 1, ⟨some "A", some 1, some 11, some 21⟩),
                 (epochFilename 7, ⟨some "C", some 7, some 13, some 23⟩),
                 (epochFilename 3, ⟨some "B", some 3, some 12, some 22⟩)] ∧
      (∀ e : Nat, epochFilename e ∈
        listdir [(epochFilename 1, ⟨some "A", some 1, some 11, some 21⟩),
                 (epochFilename 7, ⟨some "C", some 7, some 13, some 23⟩),
                 (epochFilename 3, ⟨some "B", some 3, some 12, some 22⟩)] → e ≤ M) ∧
      load_latest_checkpoint
          [(epochFilename 1, ⟨some "A", some 1, some 11, some 21⟩),
           (epochFilename 7, ⟨some "C", some 7, some 13, some 23⟩),
           (epochFilename 3, ⟨some "B", some 3, some 12, some 22⟩)] false
        = load_checkpoint
            [(epochFilename 1, ⟨some "A", some 1, some 11, some 21⟩),
             (epochFilename 7, ⟨some "C", some 7, some 13, some 23⟩),
             (epochFilename 3, ⟨some "B", some 3, some 12, some 22⟩)] false
            (epochFilename M)) :=
  ⟨by decide,
   load_latest_checkpoint_selects_max _ false (by decide)
     (by
       intro name hname
       fin_cases hname
       · exact ⟨1, rfl⟩
       · exact ⟨7, rfl⟩
       · exact ⟨3, rfl⟩)⟩

/-- Claim C8 counterexample: a payload lacking the `optimizer` field loads
successfully when no optimizer collaborator is supplied, instead of failing
with the Corrupt error the claim requires for any missing required field. -/
theorem load_checkpoint_missing_optimizer_loads :
    load_checkpoint [("checkpoint.pth", ⟨some "Net", some 3, some 11, none⟩)]
        false "checkpoint.pth"
      = .ok ⟨"Net", 11, none, 3⟩ := rfl

/-- Claim C8 (amended): a missing path raises the NotFound error; a missing
`arch`, `epoch` or `state_dict` key — or a missing `optimizer` key when an
optimizer collaborator is supplied — raises the Corrupt error; on success the
record carries the architecture, epoch, the model blob, and the optimizer
blob exactly when an optimizer collaborator was supplied. -/
theorem load_checkpoint_error_contract (fs : FS) (wo : Bool) (path : String) :
    (lookupS fs path = none → load_checkpoint fs wo path = .error .notFound) ∧
    (∀ ck : StoredState, lookupS fs path = some ck →
      (ck.arch = none ∨ ck.epoch = none ∨ ck.state_dict = none ∨
        (wo = true ∧ ck.optimizer = none)) →
      ∃ f, load_checkpoint fs wo path = .error (.corrupt f)) ∧
    (∀ (ck : StoredState) (a : String) (e sd : Int),
      lookupS fs path = some ck → ck.arch = some a → ck.epoch = some e →
      ck.state_dict = some sd →
      (wo = false → load_checkpoint fs wo path = .ok ⟨a, sd, none, e⟩) ∧
      (∀ o : Int, wo = true → ck.optimizer = some o →
        load_checkpoint fs wo path = .ok ⟨a, sd, some o, e⟩)) := by
  refine ⟨?_, ?_, ?_⟩
  · intro hnone
    simp [load_checkpoint, hnone]
  · rintro ⟨a?, e?, sd?, o?⟩ hck hmiss
    rcases hmiss with ha | he | hsd | ⟨hwo, ho⟩
    · simp only at ha
      subst ha
      cases sd? with
      | none => exact ⟨"state_dict", by simp [load_checkpoint, hck]⟩
      | some sd =>
        cases wo with
        | false => exact ⟨"arch", by simp [load_checkpoint, hck]⟩
        | true =>
          cases o? with
          | none => exact ⟨"optimizer", by simp [load_checkpoint, hck]⟩
          | some o => exact ⟨"arch", by simp [load_checkpoint, hck]⟩
    · simp only at he
      subst he
      cases sd? with
      | none => exact ⟨"state_dict", by simp [load_checkpoint, hck]⟩
      | some sd =>
        cases wo with
        | false =>
          cases a? with
          | none => exact ⟨"arch", by simp [load_checkpoint, hck]⟩
          | some a => exact ⟨"epoch", by simp [load_checkpoint, hck]⟩
        | true =>
          cases o? with
          | none => exact ⟨"optimizer", by simp [load_checkpoint, hck]⟩
          | some o =>
            cases a? with
            | none => exact ⟨"arch", by simp [load_checkpoint, hck]⟩
            | some a => exact ⟨"epoch", by simp [load_checkpoint, hck]⟩
    · simp only at hsd
      subst hsd
      exact ⟨"state_dict", by simp [load_checkpoint, hck]⟩
    · subst hwo
      simp only at ho
      subst ho
      cases sd? with
      | none => exact ⟨"state_dict", by simp [load_checkpoint, hck]⟩
      | some sd => exact ⟨"optimizer", by simp [load_checkpoint, hck]⟩
  · rintro ⟨a?, e?, sd?, o?⟩ a e sd hck ha he hsd
    simp only at ha he hsd
    subst ha he hsd
    constructor
    · intro hwo
      subst hwo
      simp [load_checkpoint, hck]
    · intro o hwo ho
      subst hwo
      simp only at ho
      subst ho
      simp [load_checkpoint, hck]

theorem load_checkpoint_error_contract_witness :
    lookupS ([] : FS) "checkpoint.pth" = none ∧
    load_checkpoint ([] : FS) true "checkpoint.pth" = .error .notFound :=
  ⟨rfl, (load_checkpoint_error_contract [] true "checkpoint.pth").1 rfl⟩

/-- Claim C10: called without an optimizer collaborator, `load_checkpoint`
never reads the payload's `optimizer` field — for an arbitrary (possibly
absent) optimizer field it succeeds and returns a record whose optimizer
component is `none`. -/
theorem load_checkpoint_without_optimizer (fs : FS) (path : String)
    (ck : StoredState) (a : String) (e sd : Int)
    (hck : lookupS fs path = some ck) (ha : ck.arch = some a)
    (he : ck.epoch = some e) (hsd : ck.state_dict = some sd) :
    load_checkpoint fs false path = .ok ⟨a, sd, none, e⟩ := by
  simp [load_checkpoint, hck, hsd, ha, he]

theorem load_checkpoint_without_optimizer_witness :
    lookupS [("model.pth", (⟨some "VGG", some 5, some 42, none⟩ : StoredState))]
        "model.pth" = some ⟨some "VGG", some 5, some 42, none⟩ ∧
    load_checkpoint [("model.pth", ⟨some "VGG", some 5, some 42, none⟩)]
        false "model.pth" = .ok ⟨"VGG", 42, none, 5⟩ :=
  ⟨rfl,
   load_checkpoint_without_optimizer _ "model.pth" ⟨some "VGG", some 5, some 42, none⟩
     "VGG" 5 42 rfl rfl rfl rfl⟩

/-! ## The metrics recorder (`tensorboard_writer.py`) -/

/-- The Python exception classes `record_data_from_dict` can raise.  The
explicit `raise Exception("Step mismatch for the scalars!")` is
`stepMismatch` (the spec's StepMismatch error); `valueError` is what
`self.types.index` raises on an unsupported type; `typeError`,
`attributeError` and `indexError` arise when the stored entry or the payload
has a shape the code does not expect. -/
inductive RecError where
  | stepMismatch
  | valueError
  | typeError
  | attributeError
  | indexError
deriving DecidableEq

/-- The payload of a metric item: an opaque blob for non-grouped types, or a
sub-tag → value mapping for the grouped `scalars` type (the numeric values
are opaque to the step logic; we model them as integers). -/
inductive TBData where
  | blob (v : Int)
  | dict (entries : List (String × Int))
deriving DecidableEq

/-- The dataclass `TBItemData`. -/
structure TBItemData where
  type : String
  data : TBData
  step : Option Int := none
deriving DecidableEq

/-- A value stored in `self.tag_steps`: an integer next step for non-grouped
tags, a sub-tag → next-step dict for `scalars` tags. -/
inductive StepEntry where
  | single (next : Int)
  | grouped (m : List (String × Int))
deriving DecidableEq

/-- `self.tensorboard_writer_fns`. -/
def tensorboard_writer_fns : List String :=
  ["add_scalar", "add_scalars", "add_image", "add_figure", "add_audio",
   "add_video", "add_text", "add_histogram", "add_graph"]

/-- `self.types`. -/
def types : List String :=
  ["scalar", "scalars", "image", "figure", "audio", "video", "text",
   "histogram", "graph"]

/-- `self.tensorboard_writer_fns[self.types.index(t)]`: `none` models the
ValueError that `list.index` raises on an unsupported type (the two lists
have equal length, so the indexing itself cannot fail). -/
def writerFnFor (t : String) : Option String :=
  tensorboard_writer_fns.get? (types.indexOf t)

/-- The recorder state: `tag_steps` and `tag_counter` exactly as in the
source, plus the sequence of `(tag, data, step)` calls already forwarded to
the `SummaryWriter` sink, in order (the sink accepts all nine operations). -/
structure WriterState where
  tag_steps : List (String × StepEntry)
  tag_counter : List (String × Int)
  events : List (String × TBData × Int)
deriving DecidableEq

/-- The state right after `TensorboardWriter.__init__`: both tables empty,
nothing forwarded yet. -/
def initWriter : WriterState :=
  ⟨[], [], []⟩

/-- `counter = self.tag_counter.get(tag, 0); self.tag_counter.update({tag: counter + 1})`. -/
def bumpCounter (c : List (String × Int)) (tag : String) : List (String × Int) :=
  upsert c tag ((lookupS c tag).getD 0 + 1)

/-- `for scalar_tag in keys: self.tag_steps[tag].update({scalar_tag: c})`:
update the grouped map at every key, in payload order. -/
def updateAll (m : List (String × Int)) (keys : List String) (c : Int) :
    List (String × Int) :=
  keys.foldl (fun acc k => upsert acc k c) m

/-- The step-resolution block for a grouped item without an explicit step
(source lines 95-105): `related_step_keys` are the sub-tags already known in
the grouped map; all known with pairwise-equal stored next-steps gives that
common value, none known gives `0`, and every other configuration raises
(the empty-payload corner indexes `related_step_values[0]`, an
`IndexError`). -/
def resolveGroupStep (m : List (String × Int)) (keys : List String) :
    Except RecError Int :=
  let related := keys.filter (fun k => (lookupS m k).isSome)
  if related.length = keys.length then
    match related.filterMap (fun k => lookupS m k) with
    | [] => .error .indexError
    | v₀ :: vs =>
      if (v₀ :: vs).count v₀ = (v₀ :: vs).length then .ok v₀
      else .error .stepMismatch
  else if related.length = 0 then .ok 0
  else .error .stepMismatch

/-- The `scalars` branch of `record_data_from_dict` (source lines 86-108).
`m` is the grouped map stored for `tag` (`[]` right after the `{}`
initialisation of a fresh tag) and `s₁` the recorder state at entry of the
branch; the error value carries the state at the moment of the raise. -/
def recordGrouped (s₁ : WriterState) (tag : String) (m : List (String × Int))
    (item : TBItemData) : Except (RecError × WriterState) WriterState :=
  match item.data with
  | .blob _ => .error (.attributeError, s₁)
  | .dict d =>
    let keys := d.map Prod.fst
    match item.step with
    | some step =>
      .ok ⟨upsert s₁.tag_steps tag (.grouped (updateAll m keys (step + 1))),
           bumpCounter s₁.tag_counter tag,
           s₁.events ++ [(tag, .dict d, step)]⟩
    | none =>
      match resolveGroupStep m keys with
      | .error e => .error (e, s₁)
      | .ok step =>
        .ok ⟨upsert s₁.tag_steps tag (.grouped (updateAll m keys (step + 1))),
             bumpCounter s₁.tag_counter tag,
             s₁.events ++ [(tag, .dict d, step)]⟩

/-- One iteration of the loop of `record_data_from_dict` on `(tag, item)`:
the updated recorder state, or the raised Python exception together with the
state at the moment of the raise (earlier mutations kept, no rollback).
The comments name the Python expression each error comes from. -/
def recordItem (s : WriterState) (tag : String) (item : TBItemData) :
    Except (RecError × WriterState) WriterState :=
  match writerFnFor item.type with
  | none => .error (.valueError, s)
  | some _ =>
    if item.type ≠ "scalars" then
      match item.step with
      | some step =>
        .ok ⟨upsert s.tag_steps tag (.single (step + 1)),
             bumpCounter s.tag_counter tag,
             s.events ++ [(tag, item.data, step)]⟩
      | none =>
        match lookupS s.tag_steps tag with
        | some (.grouped _) => .error (.typeError, s)
        | some (.single k) =>
          .ok ⟨upsert s.tag_steps tag (.single (k + 1)),
               bumpCounter s.tag_counter tag,
               s.events ++ [(tag, item.data, k)]⟩
        | none =>
          .ok ⟨upsert s.tag_steps tag (.single 1),
               bumpCounter s.tag_counter tag,
               s.events ++ [(tag, item.data, 0)]⟩
    else
      match lookupS s.tag_steps tag with
      | some (.single _) =>
        (match item.step, item.data with
         | some step, .dict [] =>
           .ok ⟨s.tag_steps, bumpCounter s.tag_counter tag,
                s.events ++ [(tag, .dict [], step)]⟩
         | some _, .dict _ => .error (.attributeError, s)
         | some _, .blob _ => .error (.attributeError, s)
         | none, .blob _ => .error (.attributeError, s)
         | none, .dict [] => .error (.indexError, s)
         | none, .dict _ => .error (.typeError, s))
      | some (.grouped m) => recordGrouped s tag m item
      | none =>
        recordGrouped ⟨upsert s.tag_steps tag (.grouped []), s.tag_counter, s.events⟩
          tag [] item

/-- `TensorboardWriter.record_data_from_dict`: process the dict items in
insertion order; a raised exception aborts the whole call, keeping the
effects of the items already processed. -/
def record_data_from_dict (s : WriterState) :
    List (String × TBItemData) → Except (RecError × WriterState) WriterState
  | [] => .ok s
  | (tag, item) :: rest =>
    match recordItem s tag item with
    | .error e => .error e
    | .ok s' => record_data_from_dict s' rest

theorem record_data_from_dict_append (s : WriterState)
    (pre post : List (String × TBItemData)) :
    record_data_from_dict s (pre ++ post)
      = match record_data_from_dict s pre with
        | .error e => .error e
        | .ok s' => record_data_from_dict s' post := by
  induction pre generalizing s with
  | nil => rfl
  | cons hd tl ih =>
    obtain ⟨tag, item⟩ := hd
    simp only [List.cons_append, record_data_from_dict]
    cases recordItem s tag item with
    | error e => rfl
    | ok s' => exact ih s'

theorem recordItem_nongrouped_explicit {ty : String} (hty : writerFnFor ty ≠ none)
    (hne : ty ≠ "scalars") (s : WriterState) (tag : String) (v : TBData) (st : Int) :
    recordItem s tag ⟨ty, v, some st⟩
      = .ok ⟨upsert s.tag_steps tag (.single (st + 1)), bumpCounter s.tag_counter tag,
             s.events ++ [(tag, v, st)]⟩ := by
  obtain ⟨fn, hfn⟩ := Option.ne_none_iff_exists'.mp hty
  simp [recordItem, hfn, hne]

theorem recordItem_nongrouped_implicit_single {ty : String} (hty : writerFnFor ty ≠ none)
    (hne : ty ≠ "scalars") (s : WriterState) (tag : String) (v : TBData) (k : Int)
    (hk : lookupS s.tag_steps tag = some (.single k)) :
    recordItem s tag ⟨ty, v, none⟩
      = .ok ⟨upsert s.tag_steps tag (.single (k + 1)), bumpCounter s.tag_counter tag,
             s.events ++ [(tag, v, k)]⟩ := by
  obtain ⟨fn, hfn⟩ := Option.ne_none_iff_exists'.mp hty
  simp [recordItem, hfn, hne, hk]

theorem recordItem_nongrouped_implicit_new {ty : String} (hty : writerFnFor ty ≠ none)
    (hne : ty ≠ "scalars") (s : WriterState) (tag : String) (v : TBData)
    (hk : lookupS s.tag_steps tag = none) :
    recordItem s tag ⟨ty, v, none⟩
      = .ok ⟨upsert s.tag_steps tag (.single 1), bumpCounter s.tag_counter tag,
             s.events ++ [(tag, v, 0)]⟩ := by
  obtain ⟨fn, hfn⟩ := Option.ne_none_iff_exists'.mp hty
  simp [recordItem, hfn, hne, hk]

theorem cons_map_range_step (tag : String) (v : TBData) (c : Int) (n : Nat) :
    (tag, v, c) :: (List.range n).map (fun i : Nat => (tag, v, (c + 1) + (i : Int)))
      = (List.range (n + 1)).map (fun i : Nat => (tag, v, c + (i : Int))) := by
  rw [List.range_succ_eq_map, List.map_cons, List.map_map]
  have hf : ((fun i : Nat => (tag, v, c + (i : Int))) ∘ Nat.succ)
      = (fun i : Nat => (tag, v, (c + 1) + (i : Int))) := by
    funext i
    simp only [Function.comp_apply, Prod.mk.injEq, true_and]
    push_cast
    ring
  rw [hf]
  simp

theorem record_replicate_single {ty : String} (hty : writerFnFor ty ≠ none)
    (hne : ty ≠ "scalars") (tag : String) (v : TBData) :
    ∀ (n : Nat) (s : WriterState) (k : Int),
      lookupS s.tag_steps tag = some (.single k) →
      ∃ s' : WriterState,
        record_data_from_dict s (List.replicate n (tag, ⟨ty, v, none⟩)) = .ok s' ∧
        s'.events
          = s.events ++ (List.range n).map (fun i : Nat => (tag, v, k + (i : Int))) ∧
        lookupS s'.tag_steps tag = some (.single (k + n)) := by
  intro n
  induction n with
  | zero =>
    intro s k hk
    exact ⟨s, rfl, by simp, by simpa using hk⟩
  | succ n ih =>
    intro s k hk
    have hrec := recordItem_nongrouped_implicit_single hty hne s tag v k hk
    have hk₁ : lookupS (upsert s.tag_steps tag (.single (k + 1))) tag
        = some (.single (k + 1)) := lookupS_upsert_self _ _ _
    obtain ⟨s', hs', hev, hlast⟩ :=
      ih ⟨upsert s.tag_steps tag (.single (k + 1)), bumpCounter s.tag_counter tag,
          s.events ++ [(tag, v, k)]⟩ (k + 1) hk₁
    refine ⟨s', ?_, ?_, ?_⟩
    · rw [List.replicate_succ]
      simp only [record_data_from_dict, hrec]
      exact hs'
    · rw [hev]
      show (s.events ++ [(tag, v, k)]) ++ _ = _
      rw [List.append_assoc, List.singleton_append, cons_map_range_step]
    · rw [hlast]
      have : k + 1 + (n : Int) = k + ((n : Nat) + 1 : Nat) := by
        push_cast
        ring
      rw [this]

/-- Claim C2: for a non-grouped metric item, an explicit step is forwarded as
given and `step + 1` becomes the tag's stored next step; with no step, the
stored next step (0 for an unseen tag) is forwarded and the stored value
increments by one; consequently recording a fresh tag `n` times with no
explicit step forwards steps `0, 1, ..., n-1` in order. -/
theorem record_nongrouped_step_policy {ty : String} (hty : writerFnFor ty ≠ none)
    (hne : ty ≠ "scalars") (s : WriterState) (tag : String) (v : TBData) :
    (∀ st : Int, recordItem s tag ⟨ty, v, some st⟩
        = .ok ⟨upsert s.tag_steps tag (.single (st + 1)), bumpCounter s.tag_counter tag,
               s.events ++ [(tag, v, st)]⟩) ∧
    (∀ k : Int, lookupS s.tag_steps tag = some (.single k) →
      recordItem s tag ⟨ty, v, none⟩
        = .ok ⟨upsert s.tag_steps tag (.single (k + 1)), bumpCounter s.tag_counter tag,
               s.events ++ [(tag, v, k)]⟩) ∧
    (lookupS s.tag_steps tag = none →
      recordItem s tag ⟨ty, v, none⟩
        = .ok ⟨upsert s.tag_steps tag (.single 1), bumpCounter s.tag_counter tag,
               s.events ++ [(tag, v, 0)]⟩) ∧
    (lookupS s.tag_steps tag = none → ∀ n : Nat,
      ∃ s' : WriterState,
        record_data_from_dict s (List.replicate n (tag, ⟨ty, v, none⟩)) = .ok s' ∧
        s'.events = s.events ++ (List.range n).map (fun i : Nat => (tag, v, (i : Int)))) := by
  refine ⟨fun st => recordItem_nongrouped_explicit hty hne s tag v st,
          fun k hk => recordItem_nongrouped_implicit_single hty hne s tag v k hk,
          fun hk => recordItem_nongrouped_implicit_new hty hne s tag v hk,
          fun hk n => ?_⟩
  cases n with
  | zero => exact ⟨s, rfl, by simp⟩
  | succ n =>
    have hrec := recordItem_nongrouped_implicit_new hty hne s tag v hk
    have hk₁ : lookupS (upsert s.tag_steps tag (.single 1)) tag = some (.single 1) :=
      lookupS_upsert_self _ _ _
    obtain ⟨s', hs', hev, _⟩ :=
      record_replicate_single hty hne tag v n
        ⟨upsert s.tag_steps tag (.single 1), bumpCounter s.tag_counter tag,
         s.events ++ [(tag, v, 0)]⟩ 1 hk₁
    refine ⟨s', ?_, ?_⟩
    · rw [List.replicate_succ]
      simp only [record_data_from_dict, hrec]
      exact hs'
    · rw [hev]
      show (s.events ++ [(tag, v, 0)]) ++ _ = _
      rw [List.append_assoc, List.singleton_append]
      have e₁ : (fun i : Nat => (tag, v, (1 : Int) + (i : Int)))
          = (fun i : Nat => (tag, v, ((0 : Int) + 1) + (i : Int))) := by
        funext i
        norm_num
      have e₂ : (fun i : Nat => (tag, v, (i : Int)))
          = (fun i : Nat => (tag, v, (0 : Int) + (i : Int))) := by
        funext i
        norm_num
      rw [e₁, e₂]
      exact congrArg (s.events ++ ·) (cons_map_range_step tag v 0 n)

theorem record_nongrouped_step_policy_witness :
    writerFnFor "scalar" ≠ none ∧ "scalar" ≠ "scalars" ∧
    ((∀ st : Int, recordItem initWriter "loss" ⟨"scalar", .blob 7, some st⟩
        = .ok ⟨upsert initWriter.tag_steps "loss" (.single (st + 1)),
               bumpCounter initWriter.tag_counter "loss",
               initWriter.events ++ [("loss", .blob 7, st)]⟩) ∧
    (∀ k : Int, lookupS initWriter.tag_steps "loss" = some (.single k) →
      recordItem initWriter "loss" ⟨"scalar", .blob 7, none⟩
        = .ok ⟨upsert initWriter.tag_steps "loss" (.single (k + 1)),
               bumpCounter initWriter.tag_counter "loss",
               initWriter.events ++ [("loss", .blob 7, k)]⟩) ∧
    (lookupS initWriter.tag_steps "loss" = none →
      recordItem initWriter "loss" ⟨"scalar", .blob 7, none⟩
        = .ok ⟨upsert initWriter.tag_steps "loss" (.single 1),
               bumpCounter initWriter.tag_counter "loss",
               initWriter.events ++ [("loss", .blob 7, 0)]⟩) ∧
    (lookupS initWriter.tag_steps "loss" = none → ∀ n : Nat,
      ∃ s' : WriterState,
        record_data_from_dict initWriter
            (List.replicate n ("loss", ⟨"scalar", .blob 7, none⟩)) = .ok s' ∧
        s'.events = initWriter.events
          ++ (List.range n).map (fun i : Nat => ("loss", .blob 7, (i : Int))))) :=
  ⟨by decide, by decide,
   @record_nongrouped_step_policy "scalar" (by decide) (by decide)
     initWriter "loss" (.blob 7)⟩

theorem upsert_upsert {α : Type} (m : List (String × α)) (k : String) (a b : α) :
    upsert (upsert m k a) k b = upsert m k b := by
  induction m with
  | nil => simp [upsert]
  | cons hd tl ih =>
    obtain ⟨k₀, v₀⟩ := hd
    by_cases h : k₀ = k
    · subst h
      simp [upsert]
    · simp [upsert, h, ih]

theorem lookupS_updateAll (keys : List String) (c : Int) :
    ∀ (m : List (String × Int)) (k : String),
      lookupS (updateAll m keys c) k = if k ∈ keys then some c else lookupS m k := by
  induction keys with
  | nil =>
    intro m k
    simp [updateAll]
  | cons k₀ ks ih =>
    intro m k
    have hstep : updateAll m (k₀ :: ks) c = updateAll (upsert m k₀ c) ks c := rfl
    rw [hstep, ih]
    by_cases hks : k ∈ ks
    · simp [hks]
    · by_cases hk₀ : k = k₀
      · subst hk₀
        simp [hks, lookupS_upsert]
      · have hk₀' : ¬k₀ = k := fun h => hk₀ h.symm
        simp [hks, hk₀, hk₀', lookupS_upsert]

theorem filterMap_lookupS_const (c : Int) :
    ∀ (keys : List String) (m : List (String × Int)),
      (∀ k ∈ keys, lookupS m k = some c) →
      keys.filterMap (fun k => lookupS m k) = List.replicate keys.length c := by
  intro keys
  induction keys with
  | nil => intro m _; rfl
  | cons k ks ih =>
    intro m h
    simp [List.filterMap_cons, h k (List.mem_cons_self _ _),
      ih m (fun x hx => h x (List.mem_cons_of_mem _ hx)), List.replicate_succ]

theorem recordItem_scalars_explicit (s : WriterState) (tag : String)
    (d : List (String × Int)) (st : Int) (m : List (String × Int))
    (hm : lookupS s.tag_steps tag = some (.grouped m)) :
    recordItem s tag ⟨"scalars", .dict d, some st⟩
      = .ok ⟨upsert s.tag_steps tag (.grouped (updateAll m (d.map Prod.fst) (st + 1))),
             bumpCounter s.tag_counter tag, s.events ++ [(tag, .dict d, st)]⟩ := by
  have hfn : writerFnFor "scalars" = some "add_scalars" := rfl
  simp [recordItem, hfn, hm, recordGrouped]

theorem recordItem_scalars_explicit_new (s : WriterState) (tag : String)
    (d : List (String × Int)) (st : Int)
    (hm : lookupS s.tag_steps tag = none) :
    recordItem s tag ⟨"scalars", .dict d, some st⟩
      = .ok ⟨upsert s.tag_steps tag (.grouped (updateAll [] (d.map Prod.fst) (st + 1))),
             bumpCounter s.tag_counter tag, s.events ++ [(tag, .dict d, st)]⟩ := by
  have hfn : writerFnFor "scalars" = some "add_scalars" := rfl
  simp [recordItem, hfn, hm, recordGrouped, upsert_upsert]

theorem resolveGroupStep_all_known (m : List (String × Int)) (keys : List String)
    (c : Int) (hkeys : keys ≠ []) (hall : ∀ k ∈ keys, lookupS m k = some c) :
    resolveGroupStep m keys = .ok c := by
  have hfilter : keys.filter (fun k => (lookupS m k).isSome) = keys :=
    List.filter_eq_self.mpr (fun k hk => by simp [hall k hk])
  have hvals : keys.filterMap (fun k => lookupS m k) = List.replicate keys.length c :=
    filterMap_lookupS_const c keys m hall
  obtain ⟨k0, ks, rfl⟩ := List.exists_cons_of_ne_nil hkeys
  simp only [resolveGroupStep]
  rw [hfilter, hvals]
  simp [List.length_cons, List.replicate_succ, List.count_replicate_self]

theorem recordGrouped_implicit_ok (s₁ : WriterState) (tag : String)
    (m d : List (String × Int)) (v : Int)
    (h : resolveGroupStep m (d.map Prod.fst) = .ok v) :
    recordGrouped s₁ tag m ⟨"scalars", .dict d, none⟩
      = .ok ⟨upsert s₁.tag_steps tag (.grouped (updateAll m (d.map Prod.fst) (v + 1))),
             bumpCounter s₁.tag_counter tag, s₁.events ++ [(tag, .dict d, v)]⟩ := by
  simp [recordGrouped, h]

theorem recordGrouped_implicit_error (s₁ : WriterState) (tag : String)
    (m d : List (String × Int)) (e : RecError)
    (h : resolveGroupStep m (d.map Prod.fst) = .error e) :
    recordGrouped s₁ tag m ⟨"scalars", .dict d, none⟩ = .error (e, s₁) := by
  simp [recordGrouped, h]

theorem recordItem_scalars_implicit_all_known (s : WriterState) (tag : String)
    (d : List (String × Int)) (hd : d ≠ []) (m : List (String × Int)) (c : Int)
    (hm : lookupS s.tag_steps tag = some (.grouped m))
    (hall : ∀ k ∈ d.map Prod.fst, lookupS m k = some c) :
    recordItem s tag ⟨"scalars", .dict d, none⟩
      = .ok ⟨upsert s.tag_steps tag (.grouped (updateAll m (d.map Prod.fst) (c + 1))),
             bumpCounter s.tag_counter tag, s.events ++ [(tag, .dict d, c)]⟩ := by
  have hfn : writerFnFor "scalars" = some "add_scalars" := rfl
  have hkeys : d.map Prod.fst ≠ [] := by
    simpa using hd
  have hres := resolveGroupStep_all_known m (d.map Prod.fst) c hkeys hall
  have hok := recordGrouped_implicit_ok s tag m d c hres
  simp [recordItem, hfn, hm, hok]

/-- Claim C3: for a grouped item carrying an explicit step `st`, every
sub-tag is forwarded at step `st` (one `add_scalars` call for the whole
payload) and the stored next step of every sub-tag of the payload becomes
`st + 1`; a subsequent call with the same sub-tags and no explicit step then
resolves its step to `st + 1` for all of them. -/
theorem record_scalars_explicit_step (s : WriterState) (tag : String)
    (d : List (String × Int)) (hd : d ≠ []) (st : Int)
    (hentry : lookupS s.tag_steps tag = none ∨
      ∃ m, lookupS s.tag_steps tag = some (.grouped m)) :
    ∃ (s₁ s₂ : WriterState) (m₁ : List (String × Int)),
      recordItem s tag ⟨"scalars", .dict d, some st⟩ = .ok s₁ ∧
      s₁.events = s.events ++ [(tag, .dict d, st)] ∧
      lookupS s₁.tag_steps tag = some (.grouped m₁) ∧
      (∀ k ∈ d.map Prod.fst, lookupS m₁ k = some (st + 1)) ∧
      recordItem s₁ tag ⟨"scalars", .dict d, none⟩ = .ok s₂ ∧
      s₂.events = s₁.events ++ [(tag, .dict d, st + 1)] := by
  have hbase : ∃ m₀ : List (String × Int),
      recordItem s tag ⟨"scalars", .dict d, some st⟩
        = .ok ⟨upsert s.tag_steps tag (.grouped (updateAll m₀ (d.map Prod.fst) (st + 1))),
               bumpCounter s.tag_counter tag, s.events ++ [(tag, .dict d, st)]⟩ := by
    rcases hentry with hm | ⟨m, hm⟩
    · exact ⟨[], recordItem_scalars_explicit_new s tag d st hm⟩
    · exact ⟨m, recordItem_scalars_explicit s tag d st m hm⟩
  obtain ⟨m₀, hrec₁⟩ := hbase
  have hall₁ : ∀ k ∈ d.map Prod.fst,
      lookupS (updateAll m₀ (d.map Prod.fst) (st + 1)) k = some (st + 1) := by
    intro k hk
    rw [lookupS_updateAll]
    simp [hk]
  have hm₁ : lookupS (upsert s.tag_steps tag
        (.grouped (updateAll m₀ (d.map Prod.fst) (st + 1)))) tag
      = some (.grouped (updateAll m₀ (d.map Prod.fst) (st + 1))) :=
    lookupS_upsert_self _ _ _
  have hrec₂ := recordItem_scalars_implicit_all_known
    ⟨upsert s.tag_steps tag (.grouped (updateAll m₀ (d.map Prod.fst) (st + 1))),
     bumpCounter s.tag_counter tag, s.events ++ [(tag, .dict d, st)]⟩
    tag d hd _ (st + 1) hm₁ hall₁
  exact ⟨_, _, updateAll m₀ (d.map Prod.fst) (st + 1), hrec₁, rfl, hm₁, hall₁,
    hrec₂, rfl⟩

theorem resolveGroupStep_mismatch (m : List (String × Int)) (keys : List String)
    (hcond :
      ((keys.filter (fun k => (lookupS m k).isSome)) ≠ [] ∧
        (keys.filter (fun k => (lookupS m k).isSome)).length < keys.length) ∨
      ((keys.filter (fun k => (lookupS m k).isSome)).length = keys.length ∧
        ∃ a ∈ (keys.filter (fun k => (lookupS m k).isSome)).filterMap
            (fun k => lookupS m k),
        ∃ b ∈ (keys.filter (fun k => (lookupS m k).isSome)).filterMap
            (fun k => lookupS m k), a ≠ b)) :
    resolveGroupStep m keys = .error .stepMismatch := by
  rcases hcond with ⟨hne, hlt⟩ | ⟨heq, a, ha, b, hb, hab⟩
  · have h1 : ¬(keys.filter (fun k => (lookupS m k).isSome)).length = keys.length :=
      Nat.ne_of_lt hlt
    have h2 : ¬(keys.filter (fun k => (lookupS m k).isSome)).length = 0 := by
      simpa [List.length_eq_zero] using hne
    simp only [resolveGroupStep]
    rw [if_neg h1, if_neg h2]
  · simp only [resolveGroupStep]
    rw [if_pos heq]
    cases hv : (keys.filter (fun k => (lookupS m k).isSome)).filterMap
        (fun k => lookupS m k) with
    | nil =>
      rw [hv] at ha
      simp at ha
    | cons v₀ vs =>
      rw [hv] at ha hb
      have hall' : (∀ x ∈ v₀ :: vs, v₀ = x) → False := fun hall =>
        hab ((hall a ha).symm.trans (hall b hb))
      have hcnt : ¬List.count v₀ vs = vs.length := by
        intro hc
        apply hall'
        apply List.count_eq_length.mp
        simp [List.count_cons_self, hc]
      simp [hcnt]

/-- Claim C1: when a grouped item without an explicit step reaches a state in
which the sub-tags already known for its tag are a strict nonempty subset of
the payload's sub-tags, or are all of them but with disagreeing stored
next-steps, the whole `record_data_from_dict` call raises the StepMismatch
error: the result carries exactly the state reached after the earlier items,
so the failing item is forwarded to no sink operation, no step bookkeeping of
it survives, and the items after it are not processed. -/
theorem record_scalars_step_mismatch_aborts (s₀ s : WriterState)
    (pre rest : List (String × TBItemData)) (tag : String)
    (d m : List (String × Int))
    (hpre : record_data_from_dict s₀ pre = .ok s)
    (hm : lookupS s.tag_steps tag = some (.grouped m))
    (hcond :
      (((d.map Prod.fst).filter (fun k => (lookupS m k).isSome)) ≠ [] ∧
        ((d.map Prod.fst).filter (fun k => (lookupS m k).isSome)).length
          < (d.map Prod.fst).length) ∨
      (((d.map Prod.fst).filter (fun k => (lookupS m k).isSome)).length
          = (d.map Prod.fst).length ∧
        ∃ a ∈ ((d.map Prod.fst).filter (fun k => (lookupS m k).isSome)).filterMap
            (fun k => lookupS m k),
        ∃ b ∈ ((d.map Prod.fst).filter (fun k => (lookupS m k).isSome)).filterMap
            (fun k => lookupS m k), a ≠ b)) :
    record_data_from_dict s₀ (pre ++ (tag, ⟨"scalars", .dict d, none⟩) :: rest)
      = .error (.stepMismatch, s) := by
  have hfn : writerFnFor "scalars" = some "add_scalars" := rfl
  have hres := resolveGroupStep_mismatch m (d.map Prod.fst) hcond
  have herr := recordGrouped_implicit_error s tag m d .stepMismatch hres
  have hitem : recordItem s tag ⟨"scalars", .dict d, none⟩
      = .error (.stepMismatch, s) := by
    simp [recordItem, hfn, hm, herr]
  rw [record_data_from_dict_append, hpre]
  show record_data_from_dict s ((tag, ⟨"scalars", .dict d, none⟩) :: rest)
    = .error (.stepMismatch, s)
  simp only [record_data_from_dict, hitem]

theorem record_scalars_step_mismatch_aborts_witness :
    record_data_from_dict initWriter [("acc", ⟨"scalars", .dict [("train", 9)], none⟩)]
      = .ok ⟨[("acc", .grouped [("train", 1)])], [("acc", 1)],
             [("acc", .dict [("train", 9)], 0)]⟩ ∧
    lookupS ([("acc", StepEntry.grouped [("train", 1)])]) "acc"
      = some (.grouped [("train", 1)]) ∧
    ((([("train", 91), ("val", 8)] : List (String × Int)).map Prod.fst).filter
        (fun k => (lookupS [("train", (1 : Int))] k).isSome) ≠ [] ∧
      ((([("train", 91), ("val", 8)] : List (String × Int)).map Prod.fst).filter
        (fun k => (lookupS [("train", (1 : Int))] k).isSome)).length
        < (([("train", 91), ("val", 8)] : List (String × Int)).map Prod.fst).length) ∧
    record_data_from_dict initWriter
        ([("acc", ⟨"scalars", .dict [("train", 9)], none⟩)]
          ++ ("acc", ⟨"scalars", .dict [("train", 91), ("val", 8)], none⟩) :: [])
      = .error (.stepMismatch,
          ⟨[("acc", .grouped [("train", 1)])], [("acc", 1)],
           [("acc", .dict [("train", 9)], 0)]⟩) :=
  ⟨rfl, rfl, by decide,
   record_scalars_step_mismatch_aborts initWriter
     ⟨[("acc", .grouped [("train", 1)])], [("acc", 1)],
      [("acc", .dict [("train", 9)], 0)]⟩
     [("acc", ⟨"scalars", .dict [("train", 9)], none⟩)] []
     "acc" [("train", 91), ("val", 8)] [("train", 1)]
     rfl rfl (Or.inl (by decide))⟩

theorem record_scalars_explicit_step_witness :
    ([("train", 9), ("val", 8)] : List (String × Int)) ≠ [] ∧
    (lookupS initWriter.tag_steps "acc" = none ∨
      ∃ m, lookupS initWriter.tag_steps "acc" = some (.grouped m)) ∧
    (∃ (s₁ s₂ : WriterState) (m₁ : List (String × Int)),
      recordItem initWriter "acc" ⟨"scalars", .dict [("train", 9), ("val", 8)], some 5⟩
        = .ok s₁ ∧
      s₁.events = initWriter.events ++ [("acc", .dict [("train", 9), ("val", 8)], 5)] ∧
      lookupS s₁.tag_steps "acc" = some (.grouped m₁) ∧
      (∀ k ∈ ([("train", 9), ("val", 8)] : List (String × Int)).map Prod.fst,
        lookupS m₁ k = some (5 + 1)) ∧
      recordItem s₁ "acc" ⟨"scalars", .dict [("train", 9), ("val", 8)], none⟩ = .ok s₂ ∧
      s₂.events = s₁.events ++ [("acc", .dict [("train", 9), ("val", 8)], 5 + 1)]) :=
  ⟨by decide, Or.inl rfl,
   record_scalars_explicit_step initWriter "acc" [("train", 9), ("val", 8)]
     (by decide) 5 (Or.inl rfl)⟩

/-- The recorder state after a `record_data_from_dict` call, whether the
call returned normally or raised: a raise leaves the recorder in the state
carried by the error value (Python rolls nothing back). -/
def resultState : Except (RecError × WriterState) WriterState → WriterState
  | .ok s => s
  | .error e => e.2

theorem recordGrouped_tag_steps_shape (s₁ : WriterState) (tag : String)
    (m : List (String × Int)) (item : TBItemData) :
    (∃ m', (resultState (recordGrouped s₁ tag m item)).tag_steps
        = upsert s₁.tag_steps tag (.grouped m')) ∨
    (resultState (recordGrouped s₁ tag m item)).tag_steps = s₁.tag_steps := by
  obtain ⟨ty, dataf, stepf⟩ := item
  cases dataf with
  | blob v => exact Or.inr rfl
  | dict d =>
    cases stepf with
    | some st => exact Or.inl ⟨_, rfl⟩
    | none =>
      cases hres : resolveGroupStep m (d.map Prod.fst) with
      | error e =>
        right
        simp [recordGrouped, hres, resultState]
      | ok v =>
        left
        refine ⟨updateAll m (d.map Prod.fst) (v + 1), ?_⟩
        simp [recordGrouped, hres, resultState]

theorem recordItem_tag_steps_shape (s : WriterState) (tag : String)
    (item : TBItemData) :
    (∃ e, (resultState (recordItem s tag item)).tag_steps = upsert s.tag_steps tag e) ∨
    (resultState (recordItem s tag item)).tag_steps = s.tag_steps := by
  obtain ⟨ty, dataf, stepf⟩ := item
  cases hfn : writerFnFor ty with
  | none =>
    right
    simp [recordItem, hfn, resultState]
  | some fn =>
    by_cases hty : ty = "scalars"
    · subst hty
      cases hlk : lookupS s.tag_steps tag with
      | none =>
        have hred : recordItem s tag ⟨"scalars", dataf, stepf⟩
            = recordGrouped ⟨upsert s.tag_steps tag (.grouped []), s.tag_counter,
                s.events⟩ tag [] ⟨"scalars", dataf, stepf⟩ := by
          simp [recordItem, hfn, hlk]
        rw [hred]
        rcases recordGrouped_tag_steps_shape
            ⟨upsert s.tag_steps tag (.grouped []), s.tag_counter, s.events⟩ tag []
            ⟨"scalars", dataf, stepf⟩ with ⟨m', hm'⟩ | hm'
        · left
          refine ⟨.grouped m', ?_⟩
          rw [hm']
          exact upsert_upsert _ _ _ _
        · left
          exact ⟨.grouped [], hm'⟩
      | some entry =>
        cases entry with
        | grouped m =>
          have hred : recordItem s tag ⟨"scalars", dataf, stepf⟩
              = recordGrouped s tag m ⟨"scalars", dataf, stepf⟩ := by
            simp [recordItem, hfn, hlk]
          rw [hred]
          rcases recordGrouped_tag_steps_shape s tag m ⟨"scalars", dataf, stepf⟩
            with ⟨m', hm'⟩ | hm'
          · exact Or.inl ⟨.grouped m', hm'⟩
          · exact Or.inr hm'
        | single k =>
          right
          cases stepf with
          | some st =>
            cases dataf with
            | blob v => simp [recordItem, hfn, hlk, resultState]
            | dict d =>
              cases d with
              | nil => simp [recordItem, hfn, hlk, resultState]
              | cons p ps => simp [recordItem, hfn, hlk, resultState]
          | none =>
            cases dataf with
            | blob v => simp [recordItem, hfn, hlk, resultState]
            | dict d => cases d <;> simp [recordItem, hfn, hlk, resultState]
    · have htyne : writerFnFor ty ≠ none := by
        rw [hfn]
        exact fun h => Option.noConfusion h
      cases stepf with
      | some st =>
        rw [recordItem_nongrouped_explicit htyne hty s tag dataf st]
        exact Or.inl ⟨_, rfl⟩
      | none =>
        cases hlk : lookupS s.tag_steps tag with
        | none =>
          rw [recordItem_nongrouped_implicit_new htyne hty s tag dataf hlk]
          exact Or.inl ⟨_, rfl⟩
        | some entry =>
          cases entry with
          | grouped m =>
            have herr : recordItem s tag ⟨ty, dataf, none⟩
                = .error (.typeError, s) := by
              simp [recordItem, hfn, hty, hlk]
            rw [herr]
            exact Or.inr rfl
          | single k =>
            rw [recordItem_nongrouped_implicit_single htyne hty s tag dataf k hlk]
            exact Or.inl ⟨_, rfl⟩

theorem record_data_domain_all (batch : List (String × TBItemData)) :
    ∀ (s : WriterState) (t : String), (lookupS s.tag_steps t).isSome →
      (lookupS (resultState (record_data_from_dict s batch)).tag_steps t).isSome := by
  induction batch with
  | nil =>
    intro s t ht
    exact ht
  | cons hd tl ih =>
    obtain ⟨tag, item⟩ := hd
    intro s t ht
    have hshape := recordItem_tag_steps_shape s tag item
    cases hrec : recordItem s tag item with
    | error e =>
      obtain ⟨er, s₁⟩ := e
      rw [hrec] at hshape
      have hshape' : (∃ e, s₁.tag_steps = upsert s.tag_steps tag e) ∨
          s₁.tag_steps = s.tag_steps := hshape
      have hcall : record_data_from_dict s ((tag, item) :: tl) = .error (er, s₁) := by
        simp [record_data_from_dict, hrec]
      rw [hcall]
      show (lookupS s₁.tag_steps t).isSome
      rcases hshape' with ⟨e', he'⟩ | he'
      · rw [he']
        exact isSome_lookupS_upsert _ _ _ _ ht
      · rw [he']
        exact ht
    | ok s₁ =>
      rw [hrec] at hshape
      have hshape' : (∃ e, s₁.tag_steps = upsert s.tag_steps tag e) ∨
          s₁.tag_steps = s.tag_steps := hshape
      have hcall : record_data_from_dict s ((tag, item) :: tl)
          = record_data_from_dict s₁ tl := by
        simp [record_data_from_dict, hrec]
      rw [hcall]
      refine ih s₁ t ?_
      rcases hshape' with ⟨e', he'⟩ | he'
      · rw [he']
        exact isSome_lookupS_upsert _ _ _ _ ht
      · rw [he']
        exact ht

/-- Claim C9 counterexample: the per-tag step bookkeeping does not only move
forward — an explicit step overwrites the stored next step with an arbitrary
value.  After recording tag `x` with explicit step 5 the stored next step is
6; recording it again with explicit step 0 moves it back to 1. -/
theorem tag_steps_next_step_can_decrease :
    record_data_from_dict initWriter [("x", ⟨"scalar", .blob 0, some 5⟩)]
      = .ok ⟨[("x", .single 6)], [("x", 1)], [("x", .blob 0, 5)]⟩ ∧
    record_data_from_dict initWriter
        [("x", ⟨"scalar", .blob 0, some 5⟩), ("x", ⟨"scalar", .blob 0, some 0⟩)]
      = .ok ⟨[("x", .single 1)], [("x", 2)], [("x", .blob 0, 5), ("x", .blob 0, 0)]⟩ ∧
    (1 : Int) < 6 :=
  ⟨rfl, rfl, by decide⟩

/-- Claim C9 (amended): the StepTable is empty when the recorder is
constructed, and the set of tags it holds grows monotonically over the
recorder's lifetime: across every `record_data_from_dict` call — whether it
returns normally or aborts with a raise (the post-raise state is the one the
error value carries; Python rolls nothing back) — entries are added or
overwritten, never removed.  (The stored next-step values themselves are not
monotone: an explicit step may overwrite them with a smaller value.) -/
theorem tag_steps_init_empty_domain_monotone :
    initWriter.tag_steps = [] ∧ initWriter.tag_counter = [] ∧
    initWriter.events = [] ∧
    ∀ (s : WriterState) (batch : List (String × TBItemData)) (t : String),
      (lookupS s.tag_steps t).isSome →
      (lookupS (resultState (record_data_from_dict s batch)).tag_steps t).isSome :=
  ⟨rfl, rfl, rfl, fun s batch t ht => record_data_domain_all batch s t ht⟩

theorem tag_steps_init_empty_domain_monotone_witness :
    record_data_from_dict ⟨[("y", StepEntry.single 3)], [], []⟩
        [("acc", ⟨"scalars", .dict [], none⟩)]
      = .error (.indexError,
          ⟨[("y", StepEntry.single 3), ("acc", StepEntry.grouped [])], [], []⟩) ∧
    (lookupS [("y", StepEntry.single 3)] "y").isSome = true ∧
    (lookupS (resultState (record_data_from_dict ⟨[("y", StepEntry.single 3)], [], []⟩
        [("acc", ⟨"scalars", .dict [], none⟩)])).tag_steps "y").isSome = true :=
  ⟨rfl, rfl,
   tag_steps_init_empty_domain_monotone.2.2.2 ⟨[("y", .single 3)], [], []⟩
     [("acc", ⟨"scalars", .dict [], none⟩)] "y" rfl⟩

end AidaptTorchUtils

